import Mathlib

/-!
# QObject.pyqtConfigure() helper and the QObject finalisation helper

A shallow embedding of `qpycore_pyqtconfigure.cpp`: the keyword worker
`handle_argument`, the entry point `qpycore_pyqtconfigure` and the finalisation
helper `qpycore_qobject_finalisation`.

The interpreter, the binding runtime, the meta-object and the type bridge are
not part of the file under study.  Their calls are fields of `Env`; a call that
can fail returns `Except PyErr _`, the error being the one the callee leaves in
the interpreter's error indicator.  Memory exhaustion is outside the model:
`PyDict_Copy` and the creation of the cached method name `connect` always
succeed, so the two branches that only test for a null allocation are absent.

Type parameters: `N` name objects (dictionary keys), `V` Python values,
`A` attribute objects returned by attribute lookup, `Q` QVariant values.
-/

namespace PyQtConfigure

/-- The result of handling a keyword argument. -/
inductive ArgStatus
  | AsError
  | AsHandled
  | AsUnknown
  deriving DecidableEq, Repr

/-- Exception classes that occur in the error indicator. -/
inductive ExcType
  | TypeError
  | AttributeError
  | KeyError
  | UnicodeEncodeError
  | RuntimeError
  deriving DecidableEq, Repr

/-- A pending Python exception: its class and its message. -/
structure PyErr where
  exc : ExcType
  msg : String
  deriving DecidableEq, Repr

/-- Value returned by `qpycore_pyqtconfigure`: `Py_None`, or the null pointer
that signals a pending exception. -/
inductive PyRet
  | Py_None
  | null
  deriving DecidableEq, Repr

/-- The calls `handle_argument` and its callers make into code outside the
file, for one receiver `self` and its QObject. -/
structure Env (N V A Q : Type) where
  /-- `sipGetCppPtr(self, sipType_QObject)`: succeeds, or fails with an error. -/
  sipGetCppPtr : Except PyErr Unit
  /-- `sipString_AsASCIIString(&name)`: the C string of the name. -/
  sipString_AsASCIIString : N → Except PyErr String
  /-- Text that the `%S` conversion of `PyErr_Format` produces for a name. -/
  str : N → String
  /-- `QMetaObject::indexOfProperty`; negative when there is no such property. -/
  indexOfProperty : String → Int
  /-- `QMetaProperty::userType` of the property at an index. -/
  userType : Int → Int
  /-- Whether `Chimera::parse` returns a converter for the property at an index. -/
  parse : Int → Bool
  /-- `Chimera::fromPyObject` of the converter of the property at an index. -/
  fromPyObject : Int → V → Except PyErr Q
  /-- `sipForceConvertToType(value, sipType_QVariant, 0, SIP_NOT_NONE, ..)`. -/
  sipForceConvertToType : V → Except PyErr Q
  /-- `PyObject_GetAttr(self, name)`. -/
  PyObject_GetAttr : N → Except PyErr A
  /-- `PyObject_TypeCheck(sig, &qpycore_pyqtBoundSignal_Type)`. -/
  isBoundSignal : A → Bool
  /-- `PyObject_CallMethodObjArgs(sig, connect_obj, value, 0)`. -/
  connect : A → V → Except PyErr Unit

/-- The mutable state the helpers act on. -/
structure World (N V A Q : Type) where
  /-- Current value of each property of the QObject, by encoded name. -/
  props : String → Option Q
  /-- The `connect` calls made so far, signal and slot, oldest first. -/
  connects : List (A × V)
  /-- The interpreter's error indicator. -/
  err : Option PyErr
  /-- Trace of the `handle_argument` invocations so far, oldest first. -/
  calls : List (N × V)

/-- `QObject::setProperty(name, value)`: the property then reads back `value`. -/
def setProperty {N V A Q : Type} (w : World N V A Q) (name : String) (value : Q) :
    World N V A Q :=
  { w with props := fun n => if n = name then some value else w.props n }

/-- Handle a single keyword argument. -/
def handle_argument {N V A Q : Type} (env : Env N V A Q) (w : World N V A Q)
    (name_obj : N) (value_obj : V) : ArgStatus × World N V A Q :=
  -- Get the name encoded name.
  match env.sipString_AsASCIIString name_obj with
  | .error e => (.AsError, { w with err := some e })
  | .ok enc_name =>
    -- See if it is a property.
    let idx := env.indexOfProperty enc_name
    if 0 ≤ idx then
      -- A negative type means a QVariant property.
      if 0 ≤ env.userType idx then
        if env.parse idx then
          match env.fromPyObject idx value_obj with
          | .error e => (.AsError, { w with err := some e })
          | .ok value => (.AsHandled, setProperty w enc_name value)
        else
          (.AsError, { w with err := some ⟨.TypeError,
            "'" ++ enc_name ++ "' keyword argument has an invalid type"⟩ })
      else
        match env.sipForceConvertToType value_obj with
        | .error e => (.AsError, { w with err := some e })
        | .ok value => (.AsHandled, setProperty w enc_name value)
    else
      -- See if it is a signal.
      match env.PyObject_GetAttr name_obj with
      | .error _ => (.AsUnknown, { w with err := none })
      | .ok sig =>
        if env.isBoundSignal sig then
          -- Connect the slot.
          let w1 := { w with connects := w.connects ++ [(sig, value_obj)] }
          match env.connect sig value_obj with
          | .error e => (.AsError, { w1 with err := some e })
          | .ok _ => (.AsHandled, w1)
        else
          (.AsUnknown, { w with err := none })

/-- A call of `handle_argument` from one of the two loops, recorded in the
trace. -/
def invoke {N V A Q : Type} (env : Env N V A Q) (w : World N V A Q)
    (name_obj : N) (value_obj : V) : ArgStatus × World N V A Q :=
  handle_argument env { w with calls := w.calls ++ [(name_obj, value_obj)] }
    name_obj value_obj

/-- A dictionary as the interpreter stores it: a table of slots in iteration
order.  Deleting a key empties its slot and moves no other entry. -/
abbrev PyDict (N V : Type) := List (Option (N × V))

/-- The entries of a dictionary, in iteration order. -/
def entries {N V : Type} (d : PyDict N V) : List (N × V) :=
  d.filterMap id

/-- The first occupied slot of `l`, whose first slot has index `i`, with the
index that follows it. -/
def nextFrom {N V : Type} : List (Option (N × V)) → Nat → Option (Nat × N × V)
  | [], _ => none
  | some e :: _, i => some (i + 1, e.1, e.2)
  | none :: t, i => nextFrom t (i + 1)

/-- `PyDict_Next(d, &pos, &key, &value)`: the next entry at or after `pos` and
the new `pos`, or `none` when the iteration is over. -/
def PyDict_Next {N V : Type} (d : PyDict N V) (pos : Nat) : Option (Nat × N × V) :=
  nextFrom (d.drop pos) pos

/-- `PyDict_DelItem(d, key)`: empties the slot of `key`; `none` (a `KeyError`)
when the key is not in the dictionary. -/
def PyDict_DelItem {N V : Type} [DecidableEq N] : PyDict N V → N → Option (PyDict N V)
  | [], _ => none
  | some e :: t, k =>
    if e.1 = k then some (none :: t)
    else (PyDict_DelItem t k).map (fun r => some e :: r)
  | none :: t, k => (PyDict_DelItem t k).map (fun r => none :: r)

/-- `PyDict_Copy(d)`: a new dictionary with the same entries. -/
def PyDict_Copy {N V : Type} (d : PyDict N V) : PyDict N V := d

/-- The loop of `qpycore_pyqtconfigure` over `PyDict_Next`. -/
def configure_loop {N V A Q : Type} (env : Env N V A Q) :
    Nat → PyDict N V → Nat → World N V A Q → Option (PyRet × World N V A Q)
  | 0, _, _, _ => none
  | fuel + 1, kwds, pos, w =>
    match PyDict_Next kwds pos with
    | none => some (.Py_None, w)
    | some (pos1, name_obj, value_obj) =>
      match invoke env w name_obj value_obj with
      | (.AsError, w1) => some (.null, w1)
      | (.AsUnknown, w1) =>
        some (.null, { w1 with err := some ⟨.AttributeError,
          "'" ++ env.str name_obj ++ "' is not a Qt property or a signal"⟩ })
      | (.AsHandled, w1) => configure_loop env fuel kwds pos1 w1

/-- This is the helper for QObject.pyqtConfigure(). -/
def qpycore_pyqtconfigure {N V A Q : Type} (env : Env N V A Q) (w : World N V A Q)
    (args : List V) (kwds : PyDict N V) : Option (PyRet × World N V A Q) :=
  -- Check there are no positional arguments.
  if args.length > 0 then
    some (.null, { w with err := some ⟨.TypeError,
      "QObject.pyqtConfigure() has no positional arguments"⟩ })
  else
    -- Get the QObject self.
    match env.sipGetCppPtr with
    | .error e => some (.null, { w with err := some e })
    | .ok _ => configure_loop env (kwds.length + 1) kwds 0 w

/-- The two dictionary objects a pointer of the finalisation helper can
designate: the caller's `kwds` and the copy made of it. -/
inductive DictRef
  | kwds
  | copy
  deriving DecidableEq, Repr

/-- The dictionary objects and the caller's sink during finalisation. -/
structure Heap (N V : Type) where
  /-- Contents of the caller's dictionary. -/
  kwds : PyDict N V
  /-- Contents of the dictionary made by `PyDict_Copy`, once it exists. -/
  copy : Option (PyDict N V)
  /-- Reference count of that copy. -/
  copyRefs : Nat
  /-- What `*updated_kwds` holds; `none` while nothing has been stored. -/
  updated_kwds : Option DictRef

/-- Contents of the dictionary a pointer designates. -/
def Heap.read {N V : Type} (h : Heap N V) : DictRef → PyDict N V
  | .kwds => h.kwds
  | .copy => h.copy.getD []

/-- Replace the contents of the dictionary a pointer designates. -/
def Heap.write {N V : Type} (h : Heap N V) : DictRef → PyDict N V → Heap N V
  | .kwds, d => { h with kwds := d }
  | .copy, d => { h with copy := some d }

/-- `Py_DECREF` of a dictionary pointer.  Only the references to the copy are
counted. -/
def Py_DECREF {N V : Type} (h : Heap N V) : DictRef → Heap N V
  | .kwds => h
  | .copy => { h with copyRefs := h.copyRefs - 1 }

/-- The loop of `qpycore_qobject_finalisation`; `has_sink` tells whether
`updated_kwds` is non-null, `unused` is the local of that name (`none` for 0). -/
def finalisation_loop {N V A Q : Type} [DecidableEq N] (env : Env N V A Q)
    (has_sink : Bool) :
    Nat → Nat → Option DictRef → World N V A Q → Heap N V →
      Option (Int × World N V A Q × Heap N V)
  | 0, _, _, _, _ => none
  | fuel + 1, pos, unused, w, h =>
    match PyDict_Next h.kwds pos with
    | none => some (0, w, h)
    | some (pos1, name_obj, value_obj) =>
      match invoke env w name_obj value_obj with
      | (.AsError, w1) => some (-1, w1, h)
      | (.AsUnknown, w1) => finalisation_loop env has_sink fuel pos1 unused w1 h
      | (.AsHandled, w1) =>
        let st : DictRef × Heap N V :=
          match unused with
          | some r => (r, h)
          | none =>
            (.copy, { h with copy := some (PyDict_Copy h.kwds), copyRefs := 1,
                             updated_kwds := some .copy })
        match PyDict_DelItem (st.2.read st.1) name_obj with
        | none =>
          some (-1, { w1 with err := some ⟨.KeyError, env.str name_obj⟩ },
            if has_sink then Py_DECREF st.2 st.1 else st.2)
        | some d =>
          finalisation_loop env has_sink fuel pos1 (some st.1) w1 (st.2.write st.1 d)

/-- What `qpycore_qobject_finalisation` leaves behind. -/
structure FinalState (N V A Q : Type) where
  world : World N V A Q
  /-- Contents of the caller's dictionary; `none` when `kwds` was null. -/
  kwds : Option (PyDict N V)
  copy : Option (PyDict N V)
  copyRefs : Nat
  updated_kwds : Option DictRef

/-- This is the helper for the QObject %FinalisationCode. -/
def qpycore_qobject_finalisation {N V A Q : Type} [DecidableEq N] (env : Env N V A Q)
    (w : World N V A Q) (kwds : Option (PyDict N V)) (has_sink : Bool) :
    Option (Int × FinalState N V A Q) :=
  match kwds with
  -- Handle the trivial case.
  | none => some (0, ⟨w, none, none, 0, none⟩)
  | some d =>
    -- The dict we will be removing handled arguments from, 0 if it needs to be
    -- created.
    let unused : Option DictRef := if has_sink then none else some .kwds
    (finalisation_loop env has_sink (d.length + 1) 0 unused w ⟨d, none, 0, none⟩).map
      (fun r => (r.1, ⟨r.2.1, some r.2.2.kwds, r.2.2.copy, r.2.2.copyRefs,
        r.2.2.updated_kwds⟩))

/-- The mapping the caller reads through the sink after finalisation, if the
sink was written. -/
def FinalState.sinkMapping {N V A Q : Type} (s : FinalState N V A Q) :
    Option (PyDict N V) :=
  match s.updated_kwds with
  | none => none
  | some .kwds => s.kwds
  | some .copy => s.copy

/-- A world with no property set, no connection and no pending error. -/
def World.empty (N V A Q : Type) : World N V A Q :=
  ⟨fun _ => none, [], none, []⟩

/-- The status `handle_argument` gives an entry (it does not depend on the
world, see `handle_argument_status`). -/
def classify {N V A Q : Type} (env : Env N V A Q) (e : N × V) : ArgStatus :=
  (handle_argument env (World.empty N V A Q) e.1 e.2).1

/-- The world after invoking `handle_argument` on each entry of a list in turn. -/
def effects {N V A Q : Type} (env : Env N V A Q) (l : List (N × V))
    (w : World N V A Q) : World N V A Q :=
  l.foldl (fun acc e => (invoke env acc e.1 e.2).2) w

/-- The QVariant that `handle_argument` writes for a value given to the property
at index `idx`, when the conversion succeeds. -/
def coerced {N V A Q : Type} (env : Env N V A Q) (idx : Int) (value_obj : V) :
    Option Q :=
  if 0 ≤ env.userType idx then
    if env.parse idx then (env.fromPyObject idx value_obj).toOption else none
  else (env.sipForceConvertToType value_obj).toOption

/-- A dictionary is well formed when no key occurs in two entries. -/
def WellFormed {N V : Type} (d : PyDict N V) : Prop :=
  ((entries d).map Prod.fst).Nodup

/-- `sub` occurs in `msg`. -/
def Contains (msg sub : String) : Prop :=
  sub.toList <:+: msg.toList

/-- Occurrence of one text in another can be checked. -/
instance containsDecidable (msg sub : String) : Decidable (Contains msg sub) := by
  unfold Contains
  infer_instance

/-- The run of `qpycore_pyqtconfigure` over the entries of its dictionary, in
iteration order. -/
def configure_entries {N V A Q : Type} (env : Env N V A Q) :
    List (N × V) → World N V A Q → PyRet × World N V A Q
  | [], w => (.Py_None, w)
  | e :: t, w =>
    match invoke env w e.1 e.2 with
    | (.AsError, w1) => (.null, w1)
    | (.AsUnknown, w1) =>
      (.null, { w1 with err := some ⟨.AttributeError,
        "'" ++ env.str e.1 ++ "' is not a Qt property or a signal"⟩ })
    | (.AsHandled, w1) => configure_entries env t w1

/-- A table of slots with the slots of the handled entries emptied. -/
def strip {N V A Q : Type} (env : Env N V A Q) (d : PyDict N V) : PyDict N V :=
  d.map (fun slot => slot.bind (fun e =>
    if classify env e = .AsHandled then none else some e))

/-- An entry whose key names a property of the QObject and whose value
converts to that property's type. -/
def IsPropertyEntry {N V A Q : Type} (env : Env N V A Q) (e : N × V) : Prop :=
  ∃ n q, env.sipString_AsASCIIString e.1 = .ok n ∧ 0 ≤ env.indexOfProperty n ∧
    coerced env (env.indexOfProperty n) e.2 = some q

/-- An entry whose key is no property, is found on the receiver as the bound
signal `sig key`, and whose value that signal connects without error. -/
def IsSignalEntry {N V A Q : Type} (env : Env N V A Q) (sig : N → A) (e : N × V) :
    Prop :=
  ∃ n, env.sipString_AsASCIIString e.1 = .ok n ∧ env.indexOfProperty n < 0 ∧
    env.PyObject_GetAttr e.1 = .ok (sig e.1) ∧ env.isBoundSignal (sig e.1) = true ∧
    env.connect (sig e.1) e.2 = .ok ()

/-- Python values of the sample scenarios. -/
inductive PyVal
  | int (n : Int)
  | func (name : String)
  | object
  deriving DecidableEq, Repr

/-- The receiver of the sample scenarios: an int property `count` (index 0),
a QVariant property `data` (index 1), a property `shape` (index 2) for whose
type no converter can be built, a signal `ping` and a plain attribute `tag`. -/
def sampleEnv : Env String PyVal String Int where
  sipGetCppPtr := .ok ()
  sipString_AsASCIIString := fun n => .ok n
  str := fun n => n
  indexOfProperty := fun n =>
    if n = "count" then 0 else if n = "data" then 1 else if n = "shape" then 2 else -1
  userType := fun i => if i = 0 then 2 else if i = 1 then -1 else 1024
  parse := fun i => decide (i = 0)
  fromPyObject := fun _ v =>
    match v with
    | .int n => .ok n
    | _ => .error ⟨.TypeError,
        "unable to convert a Python 'object' object to a C++ 'int' instance"⟩
  sipForceConvertToType := fun v =>
    match v with
    | .int n => .ok n
    | _ => .error ⟨.TypeError, "cannot convert to QVariant"⟩
  PyObject_GetAttr := fun n =>
    if n = "ping" then .ok "ping" else if n = "tag" then .ok "tag"
    else .error ⟨.AttributeError, "no such attribute"⟩
  isBoundSignal := fun a => decide (a = "ping")
  connect := fun _ v =>
    match v with
    | .func _ => .ok ()
    | _ => .error ⟨.TypeError, "argument 1 has unexpected type"⟩

/-- The world the sample scenarios start from: `count` is 1. -/
def sampleWorld : World String PyVal String Int :=
  ⟨fun n => if n = "count" then some 1 else none, [], none, []⟩

/-- The mapping `{count: 3, shape: 3}`: a handled entry followed by one for
which no converter can be built. -/
def lateErrorKwds : PyDict String PyVal :=
  [some ("count", PyVal.int 3), some ("shape", PyVal.int 3)]

/-- The mapping of scenario S5, `{count: 3, extra: 9}`. -/
def partitionKwds : PyDict String PyVal :=
  [some ("count", PyVal.int 3), some ("extra", PyVal.int 9)]

/-! ## The worker -/

/-- The status returned by `handle_argument` does not depend on the world. -/
theorem handle_argument_status {N V A Q : Type} (env : Env N V A Q)
    (w : World N V A Q) (k : N) (v : V) :
    (handle_argument env w k v).1 = classify env (k, v) := by
  unfold classify handle_argument
  dsimp only
  split
  · rfl
  · split_ifs
    · split <;> rfl
    · rfl
    · split <;> rfl
    · split
      · rfl
      · split_ifs
        · split <;> rfl
        · rfl

/-- The status of a traced call is the status of the entry. -/
theorem invoke_status {N V A Q : Type} (env : Env N V A Q)
    (w : World N V A Q) (k : N) (v : V) :
    (invoke env w k v).1 = classify env (k, v) := by
  unfold invoke
  exact handle_argument_status env _ k v

/-- A traced call appends exactly its own arguments to the trace. -/
theorem invoke_calls {N V A Q : Type} (env : Env N V A Q)
    (w : World N V A Q) (k : N) (v : V) :
    (invoke env w k v).2.calls = w.calls ++ [(k, v)] := by
  unfold invoke handle_argument
  dsimp only
  split
  · rfl
  · split_ifs
    · split <;> rfl
    · rfl
    · split <;> rfl
    · split
      · rfl
      · split_ifs
        · split <;> rfl
        · rfl

/-- When the worker reports an error it has written no property. -/
theorem handle_argument_error_props {N V A Q : Type} (env : Env N V A Q)
    (w : World N V A Q) (k : N) (v : V)
    (h : (handle_argument env w k v).1 = .AsError) :
    (handle_argument env w k v).2.props = w.props := by
  revert h
  unfold handle_argument
  dsimp only
  split
  · intro _; rfl
  · split_ifs
    · split
      · intro _; rfl
      · intro h; cases h
    · intro _; rfl
    · split
      · intro _; rfl
      · intro h; cases h
    · split
      · intro _; rfl
      · split_ifs
        · split
          · intro _; rfl
          · intro h; cases h
        · intro _; rfl

/-- An entry the worker does not know leaves properties and connections as
they were and clears the error indicator. -/
theorem invoke_unknown {N V A Q : Type} (env : Env N V A Q)
    (w : World N V A Q) (k : N) (v : V)
    (h : classify env (k, v) = .AsUnknown) :
    (invoke env w k v).2 = { w with err := none, calls := w.calls ++ [(k, v)] } := by
  rw [← invoke_status env w k v] at h
  revert h
  unfold invoke handle_argument
  dsimp only
  split
  · intro h; cases h
  · split_ifs
    · split <;> (intro h; cases h)
    · intro h; cases h
    · split <;> (intro h; cases h)
    · split
      · intro _; rfl
      · split_ifs
        · split <;> (intro h; cases h)
        · intro _; rfl

/-! ## The dictionary -/

theorem entries_nil {N V : Type} : entries ([] : PyDict N V) = [] := rfl

theorem entries_some {N V : Type} (e : N × V) (t : PyDict N V) :
    entries (some e :: t) = e :: entries t := by
  simp [entries]

theorem entries_none {N V : Type} (t : PyDict N V) :
    entries (none :: t) = entries t := by
  simp [entries]

theorem entries_append {N V : Type} (a b : PyDict N V) :
    entries (a ++ b) = entries a ++ entries b := by
  simp [entries]

theorem drop_length_succ {α : Type} (a : List α) (x : α) (t : List α) :
    (a ++ x :: t).drop (a.length + 1) = t := by
  induction a with
  | nil => rfl
  | cons y ys ih => simp

/-- At the end of the table the iteration is over. -/
theorem PyDict_Next_end {N V : Type} (a : PyDict N V) :
    PyDict_Next (a ++ []) a.length = none := by
  simp [PyDict_Next, nextFrom]

/-- An empty slot is skipped. -/
theorem PyDict_Next_skip {N V : Type} (a t : PyDict N V) :
    PyDict_Next (a ++ none :: t) a.length
      = PyDict_Next (a ++ none :: t) (a.length + 1) := by
  unfold PyDict_Next
  rw [List.drop_left, drop_length_succ]
  rfl

/-- An occupied slot is returned, and the position moves past it. -/
theorem PyDict_Next_entry {N V : Type} (a t : PyDict N V) (e : N × V) :
    PyDict_Next (a ++ some e :: t) a.length = some (a.length + 1, e.1, e.2) := by
  unfold PyDict_Next
  rw [List.drop_left]
  rfl

/-- Deleting the key of an entry no earlier entry has empties that slot. -/
theorem PyDict_DelItem_slot {N V : Type} [DecidableEq N] (b t : PyDict N V)
    (e : N × V) (h : e.1 ∉ (entries b).map Prod.fst) :
    PyDict_DelItem (b ++ some e :: t) e.1 = some (b ++ none :: t) := by
  induction b with
  | nil => simp [PyDict_DelItem]
  | cons x xs ih =>
    cases x with
    | none =>
      rw [entries_none] at h
      simp [PyDict_DelItem, ih h]
    | some y =>
      rw [entries_some] at h
      simp only [List.map_cons, List.mem_cons, not_or] at h
      have hne : ¬ y.1 = e.1 := fun hh => h.1 hh.symm
      simp [PyDict_DelItem, ih h.2, hne]

theorem entries_strip {N V A Q : Type} (env : Env N V A Q) (d : PyDict N V) :
    entries (strip env d)
      = (entries d).filter (fun e => decide (classify env e ≠ .AsHandled)) := by
  induction d with
  | nil => rfl
  | cons x xs ih =>
    cases x with
    | none =>
      have : strip env (none :: xs) = none :: strip env xs := rfl
      rw [this, entries_none, entries_none, ih]
    | some y =>
      by_cases hy : classify env y = .AsHandled
      · have : strip env (some y :: xs) = none :: strip env xs := by
          simp [strip, hy]
        rw [this, entries_none, entries_some, ih]
        simp [hy]
      · have : strip env (some y :: xs) = some y :: strip env xs := by
          simp [strip, hy]
        rw [this, entries_some, entries_some, ih]
        simp [hy]

/-! ## The loop of `qpycore_pyqtconfigure` -/

/-- With enough fuel the loop over the table is the run over its entries. -/
theorem configure_loop_eq {N V A Q : Type} (env : Env N V A Q) (suf : PyDict N V) :
    ∀ (a : PyDict N V) (fuel : Nat) (w : World N V A Q), suf.length < fuel →
      configure_loop env fuel (a ++ suf) a.length w
        = some (configure_entries env (entries suf) w) := by
  induction suf with
  | nil =>
    intro a fuel w hf
    obtain ⟨f, rfl⟩ : ∃ f, fuel = f + 1 := ⟨fuel - 1, by simp at hf; omega⟩
    rw [configure_loop, PyDict_Next_end]
    rfl
  | cons x t ih =>
    intro a fuel w hf
    obtain ⟨f, rfl⟩ : ∃ f, fuel = f + 1 := ⟨fuel - 1, by simp at hf; omega⟩
    have hassoc : a ++ x :: t = (a ++ [x]) ++ t := by simp
    have hlen : (a ++ [x]).length = a.length + 1 := by simp
    cases x with
    | none =>
      have h1 := ih (a ++ [none]) (f + 1) w (by simp at hf ⊢; omega)
      rw [configure_loop, ← hassoc, hlen, ← PyDict_Next_skip] at h1
      rw [configure_loop, entries_none]
      exact h1
    | some e =>
      rw [configure_loop, PyDict_Next_entry, entries_some, configure_entries]
      dsimp only
      have h1 := ih (a ++ [some e]) f
      rw [← hassoc, hlen] at h1
      rcases hi : invoke env w e.1 e.2 with ⟨st, w1⟩
      cases st with
      | AsError => rfl
      | AsUnknown => rfl
      | AsHandled => exact h1 w1 (by simp at hf ⊢; omega)

/-! ## The loop of `qpycore_qobject_finalisation` -/

theorem effects_nil {N V A Q : Type} (env : Env N V A Q) (w : World N V A Q) :
    effects env [] w = w := rfl

theorem effects_cons {N V A Q : Type} (env : Env N V A Q) (e : N × V)
    (t : List (N × V)) (w : World N V A Q) :
    effects env (e :: t) w = effects env t (invoke env w e.1 e.2).2 := rfl

theorem strip_nil {N V A Q : Type} (env : Env N V A Q) :
    strip env ([] : PyDict N V) = [] := rfl

theorem strip_none {N V A Q : Type} (env : Env N V A Q) (t : PyDict N V) :
    strip env (none :: t) = none :: strip env t := rfl

theorem strip_handled {N V A Q : Type} (env : Env N V A Q) (e : N × V)
    (t : PyDict N V) (he : classify env e = .AsHandled) :
    strip env (some e :: t) = none :: strip env t := by
  simp [strip, he]

theorem strip_kept {N V A Q : Type} (env : Env N V A Q) (e : N × V)
    (t : PyDict N V) (he : classify env e ≠ .AsHandled) :
    strip env (some e :: t) = some e :: strip env t := by
  simp [strip, he]

theorem Heap.write_read {N V : Type} (h : Heap N V) (r : DictRef)
    (hc : r = .copy → h.copy ≠ none) : h.write r (h.read r) = h := by
  cases r with
  | kwds => rfl
  | copy =>
    cases hcopy : h.copy with
    | none => exact absurd hcopy (hc rfl)
    | some c =>
      cases h
      simp only [Heap.write, Heap.read] at hcopy ⊢
      subst hcopy
      rfl

theorem Heap.read_write {N V : Type} (h : Heap N V) (r : DictRef) (d : PyDict N V) :
    (h.write r d).read r = d := by
  cases r <;> rfl

theorem Heap.write_write {N V : Type} (h : Heap N V) (r : DictRef)
    (d d1 : PyDict N V) : (h.write r d).write r d1 = h.write r d1 := by
  cases r <;> rfl

/-- One turn of the finalisation loop. -/
theorem finalisation_loop_succ {N V A Q : Type} [DecidableEq N] (env : Env N V A Q)
    (hs : Bool) (fuel pos : Nat) (unused : Option DictRef) (w : World N V A Q)
    (h : Heap N V) :
    finalisation_loop env hs (fuel + 1) pos unused w h =
      match PyDict_Next h.kwds pos with
      | none => some (0, w, h)
      | some (pos1, name_obj, value_obj) =>
        match invoke env w name_obj value_obj with
        | (.AsError, w1) => some (-1, w1, h)
        | (.AsUnknown, w1) => finalisation_loop env hs fuel pos1 unused w1 h
        | (.AsHandled, w1) =>
          match PyDict_DelItem
              ((match unused with
                | some r => (r, h)
                | none => (DictRef.copy,
                    (⟨h.kwds, some (PyDict_Copy h.kwds), 1, some .copy⟩ : Heap N V))).2.read
               (match unused with
                | some r => (r, h)
                | none => (DictRef.copy,
                    (⟨h.kwds, some (PyDict_Copy h.kwds), 1, some .copy⟩ : Heap N V))).1)
              name_obj with
          | none =>
            some (-1, { w1 with err := some ⟨.KeyError, env.str name_obj⟩ },
              if hs then
                Py_DECREF (match unused with
                  | some r => (r, h)
                  | none => (DictRef.copy,
                      (⟨h.kwds, some (PyDict_Copy h.kwds), 1, some .copy⟩ : Heap N V))).2
                  (match unused with
                  | some r => (r, h)
                  | none => (DictRef.copy,
                      (⟨h.kwds, some (PyDict_Copy h.kwds), 1, some .copy⟩ : Heap N V))).1
              else
                (match unused with
                  | some r => (r, h)
                  | none => (DictRef.copy,
                      (⟨h.kwds, some (PyDict_Copy h.kwds), 1, some .copy⟩ : Heap N V))).2)
          | some d =>
            finalisation_loop env hs fuel pos1
              (some (match unused with
                | some r => (r, h)
                | none => (DictRef.copy,
                    (⟨h.kwds, some (PyDict_Copy h.kwds), 1, some .copy⟩ : Heap N V))).1) w1
              ((match unused with
                | some r => (r, h)
                | none => (DictRef.copy,
                    (⟨h.kwds, some (PyDict_Copy h.kwds), 1, some .copy⟩ : Heap N V))).2.write
               (match unused with
                | some r => (r, h)
                | none => (DictRef.copy,
                    (⟨h.kwds, some (PyDict_Copy h.kwds), 1, some .copy⟩ : Heap N V))).1 d) := by
  cases unused <;> rfl

/-- The loop once the dictionary to delete from exists: with unique keys and
no entry in error it runs to the end, returns 0 and has emptied exactly the
slots of the handled entries. -/
theorem finalisation_loop_target {N V A Q : Type} [DecidableEq N]
    (env : Env N V A Q) (hs : Bool) (r : DictRef) (suf : PyDict N V) :
    ∀ (a b : PyDict N V) (fuel : Nat) (w : World N V A Q) (h : Heap N V),
      h.kwds = a ++ suf → h.read r = b ++ suf → (r = .copy → h.copy ≠ none) →
      (r = .kwds → a = b) →
      ((entries (b ++ suf)).map Prod.fst).Nodup →
      (∀ e ∈ entries suf, classify env e ≠ .AsError) →
      suf.length < fuel →
      finalisation_loop env hs fuel a.length (some r) w h
        = some (0, effects env (entries suf) w, h.write r (b ++ strip env suf)) := by
  induction suf with
  | nil =>
    intro a b fuel w h hk hr hc _ _ _ hf
    obtain ⟨f, rfl⟩ : ∃ f, fuel = f + 1 := ⟨fuel - 1, by simp at hf; omega⟩
    rw [finalisation_loop, hk, PyDict_Next_end, strip_nil, ← hr, Heap.write_read h r hc]
    rfl
  | cons x t ih =>
    intro a b fuel w h hk hr hc hab hnd hne hf
    obtain ⟨f, rfl⟩ : ∃ f, fuel = f + 1 := ⟨fuel - 1, by simp at hf; omega⟩
    cases x with
    | none =>
      have h1 := ih (a ++ [none]) (b ++ [none]) (f + 1) w h (by simp [hk])
        (by simp [hr]) hc (fun hh => by rw [hab hh])
        (by simpa [entries_append, entries_none, entries_nil] using hnd)
        (by simpa [entries_none] using hne) (by simp at hf ⊢; omega)
      rw [finalisation_loop] at h1
      rw [finalisation_loop, hk, PyDict_Next_skip, entries_none, strip_none]
      have hlen : (a ++ [none] : PyDict N V).length = a.length + 1 := by simp
      rw [hlen, hk] at h1
      simpa using h1
    | some e =>
      have hcl : classify env e ≠ .AsError := hne e (by simp [entries_some])
      have hne1 : ∀ e1 ∈ entries t, classify env e1 ≠ .AsError := fun e1 h1 =>
        hne e1 (by simp [entries_some, h1])
      have hlen : ∀ y : Option (N × V), (a ++ [y]).length = a.length + 1 := by simp
      rw [finalisation_loop, hk, PyDict_Next_entry, entries_some, effects_cons]
      dsimp only
      have hst := invoke_status env w e.1 e.2
      rcases hi : invoke env w e.1 e.2 with ⟨st, w1⟩
      rw [hi] at hst
      have hst2 : classify env e = st := hst.symm
      cases st with
      | AsError => exact absurd hst2 hcl
      | AsUnknown =>
        dsimp only
        have h1 := ih (a ++ [some e]) (b ++ [some e]) f w1 h
          (by simp [hk]) (by simp [hr]) hc (fun hh => by rw [hab hh])
          (by simpa [entries_append, entries_some, entries_nil] using hnd)
          hne1 (by simp at hf ⊢; omega)
        rw [hlen] at h1
        rw [h1, strip_kept env e t (by rw [hst2]; decide)]
        simp
      | AsHandled =>
        dsimp only
        have hkey : e.1 ∉ (entries b).map Prod.fst := by
          rw [entries_append, entries_some, List.map_append, List.map_cons] at hnd
          have := (List.nodup_append.mp hnd).2.2
          intro hmem
          exact this hmem (by simp)
        have hnd1 : ((entries ((b ++ [none]) ++ t)).map Prod.fst).Nodup := by
          rw [entries_append, entries_some, List.map_append, List.map_cons] at hnd
          rw [entries_append, entries_append, entries_none, entries_nil,
            List.append_nil, List.map_append]
          have h3 := List.nodup_append.mp hnd
          refine List.nodup_append.mpr ⟨h3.1, (List.nodup_cons.mp h3.2.1).2, ?_⟩
          intro x hx hx1
          exact h3.2.2 hx (List.mem_cons_of_mem _ hx1)
        rw [hr, PyDict_DelItem_slot b t e hkey]
        dsimp only
        have h1 := ih (a ++ [if r = .kwds then none else some e]) (b ++ [none]) f
          w1 (h.write r (b ++ none :: t))
          (by
            cases r with
            | kwds => simp [Heap.write, hab rfl]
            | copy => simp [Heap.write, hk])
          (by rw [Heap.read_write]; simp)
          (fun hh => by subst hh; simp [Heap.write])
          (fun hh => by subst hh; simp [hab rfl])
          hnd1 hne1 (by simp at hf ⊢; omega)
        rw [hlen] at h1
        rw [h1, strip_handled env e t hst2, Heap.write_write]
        simp

/-- The loop while no copy exists yet (a sink was given and nothing has been
handled so far): with unique keys and no entry in error it returns 0; without
a handled entry the heap is left as it was, otherwise the copy is made and ends
up with exactly the slots of the handled entries emptied. -/
theorem finalisation_loop_fresh {N V A Q : Type} [DecidableEq N]
    (env : Env N V A Q) (hs : Bool) (suf : PyDict N V) :
    ∀ (a : PyDict N V) (fuel : Nat) (w : World N V A Q) (h : Heap N V),
      h.kwds = a ++ suf →
      ((entries (a ++ suf)).map Prod.fst).Nodup →
      (∀ e ∈ entries suf, classify env e ≠ .AsError) →
      suf.length < fuel →
      ((∀ e ∈ entries suf, classify env e ≠ .AsHandled) →
        finalisation_loop env hs fuel a.length none w h
          = some (0, effects env (entries suf) w, h)) ∧
      ((∃ e ∈ entries suf, classify env e = .AsHandled) →
        finalisation_loop env hs fuel a.length none w h
          = some (0, effects env (entries suf) w,
              ⟨h.kwds, some (a ++ strip env suf), 1, some .copy⟩)) := by
  induction suf with
  | nil =>
    intro a fuel w h hk _ _ hf
    obtain ⟨f, rfl⟩ : ∃ f, fuel = f + 1 := ⟨fuel - 1, by simp at hf; omega⟩
    constructor
    · intro _
      rw [finalisation_loop, hk, PyDict_Next_end]
      rfl
    · rintro ⟨e, he, _⟩
      simp [entries_nil] at he
  | cons x t ih =>
    intro a fuel w h hk hnd hne hf
    obtain ⟨f, rfl⟩ : ∃ f, fuel = f + 1 := ⟨fuel - 1, by simp at hf; omega⟩
    have hlen : ∀ y : Option (N × V), (a ++ [y]).length = a.length + 1 := by simp
    cases x with
    | none =>
      have h1 := ih (a ++ [none]) (f + 1) w h (by simp [hk])
        (by simpa [entries_append, entries_none, entries_nil] using hnd)
        (by simpa [entries_none] using hne) (by simp at hf ⊢; omega)
      rw [finalisation_loop, hlen, hk, ← PyDict_Next_skip] at h1
      rw [finalisation_loop, hk, entries_none, strip_none]
      have happ : a ++ [none] ++ strip env t = a ++ none :: strip env t := by simp
      rw [happ] at h1
      exact h1
    | some e =>
      have hcl : classify env e ≠ .AsError := hne e (by simp [entries_some])
      have hne1 : ∀ e1 ∈ entries t, classify env e1 ≠ .AsError := fun e1 h1 =>
        hne e1 (by simp [entries_some, h1])
      rw [finalisation_loop, entries_some, effects_cons, hk, PyDict_Next_entry]
      dsimp only
      have hst := invoke_status env w e.1 e.2
      rcases hi : invoke env w e.1 e.2 with ⟨st, w1⟩
      rw [hi] at hst
      have hst2 : classify env e = st := hst.symm
      cases st with
      | AsError => exact absurd hst2 hcl
      | AsUnknown =>
        dsimp only
        have h1 := ih (a ++ [some e]) f w1 h (by simp [hk])
          (by simpa [entries_append, entries_some, entries_nil] using hnd)
          hne1 (by simp at hf ⊢; omega)
        rw [hlen, hk] at h1
        have happ : a ++ [some e] ++ strip env t = a ++ some e :: strip env t := by simp
        rw [happ] at h1
        rw [strip_kept env e t (by rw [hst2]; decide)]
        constructor
        · intro hall
          exact h1.1 (fun e1 he1 => hall e1 (List.mem_cons_of_mem _ he1))
        · rintro ⟨e1, he1, hc1⟩
          rcases List.mem_cons.mp he1 with heq | hmem
          · subst heq
            rw [hst2] at hc1
            cases hc1
          · exact h1.2 ⟨e1, hmem, hc1⟩
      | AsHandled =>
        dsimp only
        have hkey : e.1 ∉ (entries a).map Prod.fst := by
          rw [entries_append, entries_some, List.map_append, List.map_cons] at hnd
          have := (List.nodup_append.mp hnd).2.2
          intro hmem
          exact this hmem (by simp)
        have hnd1 : ((entries ((a ++ [none]) ++ t)).map Prod.fst).Nodup := by
          rw [entries_append, entries_some, List.map_append, List.map_cons] at hnd
          rw [entries_append, entries_append, entries_none, entries_nil,
            List.append_nil, List.map_append]
          have h3 := List.nodup_append.mp hnd
          refine List.nodup_append.mpr ⟨h3.1, (List.nodup_cons.mp h3.2.1).2, ?_⟩
          intro x hx hx1
          exact h3.2.2 hx (List.mem_cons_of_mem _ hx1)
        have hread : Heap.read (⟨a ++ some e :: t, some (PyDict_Copy (a ++ some e :: t)),
            1, some .copy⟩ : Heap N V) DictRef.copy = a ++ some e :: t := rfl
        rw [hread, PyDict_DelItem_slot a t e hkey]
        dsimp only
        have h1 := finalisation_loop_target env hs .copy t (a ++ [some e]) (a ++ [none]) f
          w1 (Heap.write (⟨a ++ some e :: t, some (PyDict_Copy (a ++ some e :: t)),
            1, some .copy⟩ : Heap N V) DictRef.copy (a ++ none :: t))
          (by simp [Heap.write])
          (by rw [Heap.read_write]; simp)
          (fun _ => by simp [Heap.write])
          (fun hh => by cases hh)
          hnd1 hne1 (by simp at hf ⊢; omega)
        rw [hlen] at h1
        rw [h1, strip_handled env e t hst2]
        constructor
        · intro hall
          exact absurd hst2 (hall e (List.mem_cons_self _ _))
        · intro _
          simp [Heap.write]

/-- The loop on a call that was given a sink never changes the caller's
dictionary, always returns, and changes the copy and the sink only if some
entry is handled. -/
theorem finalisation_loop_frame {N V A Q : Type} [DecidableEq N]
    (env : Env N V A Q) (hs : Bool) (suf : PyDict N V) :
    ∀ (a : PyDict N V) (fuel : Nat) (unused : Option DictRef) (w : World N V A Q)
      (h : Heap N V),
      unused ≠ some .kwds → h.kwds = a ++ suf → suf.length < fuel →
      ∃ ret w1 h1, finalisation_loop env hs fuel a.length unused w h = some (ret, w1, h1)
        ∧ h1.kwds = h.kwds
        ∧ ((h1.updated_kwds = h.updated_kwds ∧ h1.copy = h.copy
              ∧ h1.copyRefs = h.copyRefs)
            ∨ ∃ e ∈ entries suf, classify env e = .AsHandled) := by
  induction suf with
  | nil =>
    intro a fuel unused w h _ hk hf
    obtain ⟨f, rfl⟩ : ∃ f, fuel = f + 1 := ⟨fuel - 1, by simp at hf; omega⟩
    have hn : PyDict_Next h.kwds a.length = none := by
      rw [hk]; exact PyDict_Next_end a
    rw [finalisation_loop_succ, hn]
    exact ⟨0, w, h, rfl, rfl, Or.inl ⟨rfl, rfl, rfl⟩⟩
  | cons x t ih =>
    intro a fuel unused w h hu hk hf
    obtain ⟨f, rfl⟩ : ∃ f, fuel = f + 1 := ⟨fuel - 1, by simp at hf; omega⟩
    have hlen : ∀ y : Option (N × V), (a ++ [y]).length = a.length + 1 := by simp
    cases x with
    | none =>
      obtain ⟨ret, w1, h1, he, hkw, hrest⟩ := ih (a ++ [none]) (f + 1) unused w h hu
        (by simp [hk]) (by simp at hf ⊢; omega)
      have hn : PyDict_Next h.kwds (a.length + 1) = PyDict_Next h.kwds a.length := by
        rw [hk]; exact (PyDict_Next_skip a t).symm
      rw [finalisation_loop_succ, hlen, hn] at he
      rw [finalisation_loop_succ]
      refine ⟨ret, w1, h1, he, hkw, ?_⟩
      simpa [entries_none] using hrest
    | some e =>
      have hn : PyDict_Next h.kwds a.length = some (a.length + 1, e.1, e.2) := by
        rw [hk]; exact PyDict_Next_entry a t e
      rw [finalisation_loop_succ, hn]
      dsimp only
      have hst := invoke_status env w e.1 e.2
      rcases hi : invoke env w e.1 e.2 with ⟨st, w1⟩
      rw [hi] at hst
      have hst2 : classify env e = st := hst.symm
      cases st with
      | AsError =>
        exact ⟨-1, w1, h, rfl, rfl, Or.inl ⟨rfl, rfl, rfl⟩⟩
      | AsUnknown =>
        dsimp only
        obtain ⟨ret, w2, h2, he, hkw, hrest⟩ := ih (a ++ [some e]) f unused w1 h hu
          (by simp [hk]) (by simp at hf ⊢; omega)
        rw [hlen] at he
        refine ⟨ret, w2, h2, he, hkw, ?_⟩
        rcases hrest with hrest | ⟨e1, he1, hc1⟩
        · exact Or.inl hrest
        · exact Or.inr ⟨e1, by simp [entries_some, he1], hc1⟩
      | AsHandled =>
        dsimp only
        have hhandled : ∃ e1 ∈ entries (some e :: t), classify env e1 = .AsHandled :=
          ⟨e, by simp [entries_some], hst2⟩
        have key : ∀ h0 : Heap N V, h0.kwds = h.kwds → ∃ ret w2 h2,
            (match PyDict_DelItem (h0.read DictRef.copy) e.1 with
              | none =>
                some (-1, ({ w1 with err := some ⟨.KeyError, env.str e.1⟩ } : World N V A Q),
                  if hs then Py_DECREF h0 DictRef.copy else h0)
              | some d =>
                finalisation_loop env hs f (a.length + 1) (some DictRef.copy) w1
                  (h0.write DictRef.copy d)) = some (ret, w2, h2)
            ∧ h2.kwds = h.kwds := by
          intro h0 hk0
          cases hdel : PyDict_DelItem (h0.read DictRef.copy) e.1 with
          | none =>
            dsimp only
            refine ⟨-1, _, _, rfl, ?_⟩
            cases hs <;> simp [Py_DECREF, hk0]
          | some d =>
            dsimp only
            obtain ⟨ret, w2, h2, he, hkw, _⟩ := ih (a ++ [some e]) f (some .copy) w1
              (h0.write .copy d) (by simp) (by simp [Heap.write, hk0, hk])
              (by simp at hf ⊢; omega)
            rw [hlen] at he
            refine ⟨ret, w2, h2, he, ?_⟩
            rw [hkw]
            simp [Heap.write, hk0]
        cases unused with
        | none =>
          obtain ⟨ret, w2, h2, he, hkw⟩ := key ⟨h.kwds, some (PyDict_Copy h.kwds), 1,
            some .copy⟩ rfl
          exact ⟨ret, w2, h2, he, hkw, Or.inr hhandled⟩
        | some r =>
          cases r with
          | kwds => exact absurd rfl hu
          | copy =>
            obtain ⟨ret, w2, h2, he, hkw⟩ := key h rfl
            exact ⟨ret, w2, h2, he, hkw, Or.inr hhandled⟩

/-! ## Runs over lists of entries -/

/-- The trace grows by exactly the entries run. -/
theorem effects_calls {N V A Q : Type} (env : Env N V A Q) (l : List (N × V)) :
    ∀ w : World N V A Q, (effects env l w).calls = w.calls ++ l := by
  induction l with
  | nil => intro w; simp [effects_nil]
  | cons e t ih =>
    intro w
    rw [effects_cons, ih, invoke_calls]
    simp

/-- Handled entries at the head of a run are the same as their effects. -/
theorem configure_entries_handled {N V A Q : Type} (env : Env N V A Q)
    (done : List (N × V)) :
    ∀ (l : List (N × V)) (w : World N V A Q),
      (∀ e ∈ done, classify env e = .AsHandled) →
      configure_entries env (done ++ l) w = configure_entries env l (effects env done w) := by
  induction done with
  | nil => intro l w _; rfl
  | cons e t ih =>
    intro l w hd
    have hst := invoke_status env w e.1 e.2
    have he : classify env e = .AsHandled := hd e (List.mem_cons_self _ _)
    rw [List.cons_append, configure_entries, effects_cons]
    rcases hi : invoke env w e.1 e.2 with ⟨st, w1⟩
    rw [hi] at hst
    have hst2 : st = .AsHandled := hst.trans he
    subst hst2
    exact ih l w1 (fun e1 h1 => hd e1 (List.mem_cons_of_mem _ h1))

/-- What a traced call does for a property entry. -/
theorem invoke_property {N V A Q : Type} (env : Env N V A Q) (w : World N V A Q)
    (k : N) (v : V) (n : String) (q : Q)
    (hn : env.sipString_AsASCIIString k = .ok n) (hi : 0 ≤ env.indexOfProperty n)
    (hq : coerced env (env.indexOfProperty n) v = some q) :
    invoke env w k v
      = (.AsHandled, setProperty { w with calls := w.calls ++ [(k, v)] } n q) := by
  unfold invoke handle_argument
  rw [hn]
  dsimp only
  rw [if_pos hi]
  unfold coerced at hq
  by_cases hu : 0 ≤ env.userType (env.indexOfProperty n)
  · rw [if_pos hu] at hq ⊢
    by_cases hp : env.parse (env.indexOfProperty n) = true
    · rw [if_pos hp] at hq ⊢
      cases hf : env.fromPyObject (env.indexOfProperty n) v with
      | error e => rw [hf] at hq; cases hq
      | ok q1 =>
        rw [hf] at hq
        cases hq
        rfl
    · rw [if_neg hp] at hq
      cases hq
  · rw [if_neg hu] at hq ⊢
    cases hf : env.sipForceConvertToType v with
    | error e => rw [hf] at hq; cases hq
    | ok q1 =>
      rw [hf] at hq
      cases hq
      rfl

theorem classify_property {N V A Q : Type} (env : Env N V A Q) (e : N × V)
    (h : IsPropertyEntry env e) : classify env e = .AsHandled := by
  obtain ⟨n, q, hn, hi, hq⟩ := h
  rw [← invoke_status env (World.empty N V A Q) e.1 e.2, invoke_property env _ e.1 e.2 n q hn hi hq]

/-- A run of property entries leaves alone every property none of them names. -/
theorem effects_props_frame {N V A Q : Type} (env : Env N V A Q) (l : List (N × V)) :
    ∀ (w : World N V A Q), (∀ e ∈ l, IsPropertyEntry env e) →
      ∀ n, (∀ e ∈ l, env.sipString_AsASCIIString e.1 ≠ .ok n) →
        (effects env l w).props n = w.props n := by
  induction l with
  | nil => intro w _ n _; rfl
  | cons e t ih =>
    intro w hp n hn
    obtain ⟨m, q, hm, hi, hq⟩ := hp e (List.mem_cons_self _ _)
    rw [effects_cons, ih _ (fun e1 h1 => hp e1 (List.mem_cons_of_mem _ h1)) n
      (fun e1 h1 => hn e1 (List.mem_cons_of_mem _ h1)),
      invoke_property env w e.1 e.2 m q hm hi hq]
    have hne : n ≠ m := by
      intro hh
      subst hh
      exact hn e (List.mem_cons_self _ _) hm
    simp [setProperty, hne]

/-- After a run of property entries a property named by one entry only holds
the value converted from that entry. -/
theorem effects_props_written {N V A Q : Type} (env : Env N V A Q) (l : List (N × V)) :
    ∀ (w : World N V A Q), (∀ e ∈ l, IsPropertyEntry env e) →
      ∀ e ∈ l, ∀ n, env.sipString_AsASCIIString e.1 = .ok n →
        (∀ e1 ∈ l, env.sipString_AsASCIIString e1.1 = .ok n → e1 = e) →
        (effects env l w).props n = coerced env (env.indexOfProperty n) e.2 := by
  induction l with
  | nil => intro w _ e he; cases he
  | cons e0 t ih =>
    intro w hp e he n hn huniq
    have hpt : ∀ e1 ∈ t, IsPropertyEntry env e1 := fun e1 h1 =>
      hp e1 (List.mem_cons_of_mem _ h1)
    rw [effects_cons]
    by_cases hex : ∃ e1 ∈ t, env.sipString_AsASCIIString e1.1 = .ok n
    · obtain ⟨e1, h1, hn1⟩ := hex
      have heq : e1 = e := huniq e1 (List.mem_cons_of_mem _ h1) hn1
      subst heq
      exact ih _ hpt e1 h1 n hn
        (fun e2 h2 hn2 => huniq e2 (List.mem_cons_of_mem _ h2) hn2)
    · have hnone : ∀ e1 ∈ t, env.sipString_AsASCIIString e1.1 ≠ .ok n := fun e1 h1 hn1 =>
        hex ⟨e1, h1, hn1⟩
      have he0 : e = e0 := by
        rcases List.mem_cons.mp he with h0 | h0
        · exact h0
        · exact absurd hn (hnone e h0)
      subst he0
      obtain ⟨m, q, hm, hi, hq⟩ := hp e (List.mem_cons_self _ _)
      have hmn : m = n := by
        rw [hm] at hn
        cases hn
        rfl
      subst hmn
      rw [effects_props_frame env t _ hpt m hnone, invoke_property env w e.1 e.2 m q hm hi hq,
        hq]
      simp [setProperty]

/-- What a traced call does for a signal entry. -/
theorem invoke_signal {N V A Q : Type} (env : Env N V A Q) (w : World N V A Q)
    (sig : N → A) (e : N × V) (h : IsSignalEntry env sig e) :
    invoke env w e.1 e.2
      = (.AsHandled, { w with connects := w.connects ++ [(sig e.1, e.2)],
                              calls := w.calls ++ [(e.1, e.2)] }) := by
  obtain ⟨n, hn, hi, hg, hb, hc⟩ := h
  unfold invoke handle_argument
  rw [hn]
  dsimp only
  rw [if_neg (not_le.mpr hi), hg]
  dsimp only
  rw [if_pos hb, hc]

/-- A run of signal entries connects each value to its signal, in order, and
writes no property. -/
theorem effects_signals {N V A Q : Type} (env : Env N V A Q) (sig : N → A)
    (l : List (N × V)) :
    ∀ (w : World N V A Q), (∀ e ∈ l, IsSignalEntry env sig e) →
      (effects env l w).connects = w.connects ++ l.map (fun e => (sig e.1, e.2))
        ∧ (effects env l w).props = w.props := by
  induction l with
  | nil => intro w _; simp [effects_nil]
  | cons e t ih =>
    intro w hl
    have h1 := ih (invoke env w e.1 e.2).2 (fun e1 h1 => hl e1 (List.mem_cons_of_mem _ h1))
    rw [effects_cons, h1.1, h1.2, invoke_signal env w sig e (hl e (List.mem_cons_self _ _))]
    simp

theorem classify_signal {N V A Q : Type} (env : Env N V A Q) (sig : N → A) (e : N × V)
    (h : IsSignalEntry env sig e) : classify env e = .AsHandled := by
  rw [← invoke_status env (World.empty N V A Q) e.1 e.2, invoke_signal env _ sig e h]

/-- With no positional argument and a receiver that unwraps, the helper is the
run over the entries of its dictionary. -/
theorem qpycore_pyqtconfigure_eq {N V A Q : Type} (env : Env N V A Q)
    (w : World N V A Q) (kwds : PyDict N V) (hself : env.sipGetCppPtr = .ok ()) :
    qpycore_pyqtconfigure env w [] kwds = some (configure_entries env (entries kwds) w) := by
  unfold qpycore_pyqtconfigure
  rw [hself]
  have h := configure_loop_eq env kwds [] (kwds.length + 1) w (Nat.lt_succ_self _)
  simpa using h

/-! ## Properties of `qpycore_pyqtconfigure` -/

/-- C1: when the receiver unwraps and every key of the mapping names a property
whose value converts (different keys naming different properties),
`qpycore_pyqtconfigure` with no positional argument returns `Py_None`; afterwards
each property named by a key holds the value converted from that key's value, and
every property named by no key is as before. -/
theorem configure_sets_properties {N V A Q : Type} (env : Env N V A Q)
    (w : World N V A Q) (kwds : PyDict N V)
    (hself : env.sipGetCppPtr = .ok ())
    (hprop : ∀ e ∈ entries kwds, IsPropertyEntry env e)
    (hinj : ∀ e1 ∈ entries kwds, ∀ e2 ∈ entries kwds,
      env.sipString_AsASCIIString e1.1 = env.sipString_AsASCIIString e2.1 → e1 = e2) :
    ∃ w1, qpycore_pyqtconfigure env w [] kwds = some (.Py_None, w1)
      ∧ (∀ e ∈ entries kwds, ∀ n, env.sipString_AsASCIIString e.1 = .ok n →
          (w1.props n).isSome = true
            ∧ w1.props n = coerced env (env.indexOfProperty n) e.2)
      ∧ (∀ n, (∀ e ∈ entries kwds, env.sipString_AsASCIIString e.1 ≠ .ok n) →
          w1.props n = w.props n) := by
  refine ⟨effects env (entries kwds) w, ?_, ?_, ?_⟩
  · rw [qpycore_pyqtconfigure_eq env w kwds hself]
    have h := configure_entries_handled env (entries kwds) [] w
      (fun e he => classify_property env e (hprop e he))
    rw [List.append_nil] at h
    rw [h]
    rfl
  · intro e he n hn
    have hw := effects_props_written env (entries kwds) w hprop e he n hn
      (fun e1 h1 hn1 => hinj e1 h1 e he (hn1.trans hn.symm))
    obtain ⟨m, q, hm, _, hq⟩ := hprop e he
    have hmn : m = n := by
      rw [hm] at hn
      cases hn
      rfl
    subst hmn
    rw [hw, hq]
    exact ⟨rfl, rfl⟩
  · intro n hn
    exact effects_props_frame env (entries kwds) w hprop n hn

/-- Scenario S1: `pyqtConfigure(count=7)` returns `Py_None` and `count` is 7. -/
theorem configure_sets_properties_witness :
    ∃ w1, qpycore_pyqtconfigure sampleEnv sampleWorld [] [some ("count", PyVal.int 7)]
        = some (.Py_None, w1) ∧ w1.props "count" = some 7 := by
  obtain ⟨w1, hret, hset, _⟩ := configure_sets_properties sampleEnv sampleWorld
    [some ("count", PyVal.int 7)] rfl
    (by
      intro e he
      simp [entries] at he
      subst he
      exact ⟨"count", 7, rfl, by decide, rfl⟩)
    (by
      intro e1 h1 e2 h2 _
      simp [entries] at h1 h2
      rw [h1, h2])
  exact ⟨w1, hret, (hset ("count", PyVal.int 7) (by simp [entries]) "count" rfl).2⟩

/-- C2: when the receiver unwraps and every key of the mapping is no property
but a bound signal of the receiver whose `connect` call succeeds,
`qpycore_pyqtconfigure` returns `Py_None`, has made exactly one `connect` call
per entry, with that entry's value as the argument and in iteration order, and
has written no property. -/
theorem configure_connects_signals {N V A Q : Type} (env : Env N V A Q)
    (w : World N V A Q) (kwds : PyDict N V) (sig : N → A)
    (hself : env.sipGetCppPtr = .ok ())
    (hsig : ∀ e ∈ entries kwds, IsSignalEntry env sig e) :
    ∃ w1, qpycore_pyqtconfigure env w [] kwds = some (.Py_None, w1)
      ∧ w1.connects = w.connects ++ (entries kwds).map (fun e => (sig e.1, e.2))
      ∧ w1.connects.length = w.connects.length + (entries kwds).length
      ∧ w1.props = w.props := by
  have hc := effects_signals env sig (entries kwds) w hsig
  refine ⟨effects env (entries kwds) w, ?_, hc.1, ?_, hc.2⟩
  · rw [qpycore_pyqtconfigure_eq env w kwds hself]
    have h := configure_entries_handled env (entries kwds) [] w
      (fun e he => classify_signal env sig e (hsig e he))
    rw [List.append_nil] at h
    rw [h]
    rfl
  · rw [hc.1]
    simp

/-- Scenario S2: `pyqtConfigure(ping=f)` returns `Py_None` and has connected
`f` to `ping` once. -/
theorem configure_connects_signals_witness :
    ∃ w1, qpycore_pyqtconfigure sampleEnv sampleWorld [] [some ("ping", PyVal.func "f")]
        = some (.Py_None, w1) ∧ w1.connects = [("ping", PyVal.func "f")] := by
  obtain ⟨w1, hret, hcon, _, _⟩ := configure_connects_signals sampleEnv sampleWorld
    [some ("ping", PyVal.func "f")] (fun n => n) rfl
    (by
      intro e he
      simp [entries] at he
      subst he
      exact ⟨"ping", rfl, by decide, rfl, by decide, rfl⟩)
  exact ⟨w1, hret, hcon⟩

/-- C4: when the receiver unwraps, the entries iterated before key `K` are all
handled and `K` is unknown, `qpycore_pyqtconfigure` returns null with the
AttributeError whose message quotes the text of the original name object of `K`;
properties and connections are those left by the entries before `K`, and the
worker has been invoked on those entries and on `K` only. -/
theorem configure_unknown_key {N V A Q : Type} (env : Env N V A Q)
    (w : World N V A Q) (kwds : PyDict N V) (done rest : List (N × V)) (K : N) (v : V)
    (hself : env.sipGetCppPtr = .ok ())
    (hM : entries kwds = done ++ (K, v) :: rest)
    (hdone : ∀ e ∈ done, classify env e = .AsHandled)
    (hK : classify env (K, v) = .AsUnknown) :
    ∃ w1, qpycore_pyqtconfigure env w [] kwds = some (.null, w1)
      ∧ w1.err = some ⟨.AttributeError,
          "'" ++ env.str K ++ "' is not a Qt property or a signal"⟩
      ∧ w1.props = (effects env done w).props
      ∧ w1.connects = (effects env done w).connects
      ∧ w1.calls = w.calls ++ done ++ [(K, v)] := by
  rw [qpycore_pyqtconfigure_eq env w kwds hself, hM,
    configure_entries_handled env done _ w hdone, configure_entries]
  have hst := invoke_status env (effects env done w) K v
  have hu := invoke_unknown env (effects env done w) K v hK
  rcases hi : invoke env (effects env done w) K v with ⟨st, w2⟩
  rw [hi] at hst hu
  have hst2 : st = .AsUnknown := hst.trans hK
  subst hst2
  dsimp only at hu ⊢
  subst hu
  exact ⟨_, rfl, rfl, rfl, rfl, by simp [effects_calls]⟩

/-- Scenario S3 after a handled key: `pyqtConfigure(count=7, foo=1, data=2)`
fails on `foo` with `count` set and `data` untouched. -/
theorem configure_unknown_key_witness :
    ∃ w1, qpycore_pyqtconfigure sampleEnv sampleWorld []
        [some ("count", PyVal.int 7), some ("foo", PyVal.int 1), some ("data", PyVal.int 2)]
          = some (.null, w1)
      ∧ w1.err = some ⟨.AttributeError, "'foo' is not a Qt property or a signal"⟩
      ∧ w1.props "count" = some 7 ∧ w1.props "data" = none
      ∧ w1.calls = [("count", PyVal.int 7), ("foo", PyVal.int 1)] := by
  obtain ⟨w1, hret, herr, hprops, _, hcalls⟩ := configure_unknown_key sampleEnv sampleWorld
    [some ("count", PyVal.int 7), some ("foo", PyVal.int 1), some ("data", PyVal.int 2)]
    [("count", PyVal.int 7)] [("data", PyVal.int 2)] "foo" (PyVal.int 1) rfl rfl
    (by decide) (by decide)
  refine ⟨w1, hret, herr, ?_, ?_, hcalls⟩
  · rw [hprops]; rfl
  · rw [hprops]; rfl

/-- C7: whenever `handle_argument` returns `AsError`, the properties of the
QObject after the call are those before it. -/
theorem handle_argument_error_writes_nothing {N V A Q : Type} (env : Env N V A Q)
    (w : World N V A Q) (name_obj : N) (value_obj : V)
    (h : (handle_argument env w name_obj value_obj).1 = .AsError) :
    (handle_argument env w name_obj value_obj).2.props = w.props :=
  handle_argument_error_props env w name_obj value_obj h

/-- A value the converter of `count` rejects: the worker reports an error and
`count` keeps its value. -/
theorem handle_argument_error_writes_nothing_witness :
    (handle_argument sampleEnv sampleWorld "count" PyVal.object).1 = .AsError
      ∧ (handle_argument sampleEnv sampleWorld "count" PyVal.object).2.props
          = sampleWorld.props :=
  ⟨by decide,
    handle_argument_error_writes_nothing sampleEnv sampleWorld "count" PyVal.object
      (by decide)⟩

/-- C9: with a non-empty positional tuple `qpycore_pyqtconfigure` returns null
with the TypeError "... has no positional arguments", whatever the receiver and
the keyword mapping are (also when the receiver would not unwrap); no property
is written, no slot connected and the worker is not invoked. -/
theorem configure_rejects_positional {N V A Q : Type} (env : Env N V A Q)
    (w : World N V A Q) (args : List V) (kwds : PyDict N V) (hargs : args ≠ []) :
    ∃ w1, qpycore_pyqtconfigure env w args kwds = some (.null, w1)
      ∧ w1.err = some ⟨.TypeError, "QObject.pyqtConfigure() has no positional arguments"⟩
      ∧ Contains "QObject.pyqtConfigure() has no positional arguments"
          "no positional arguments"
      ∧ w1.props = w.props ∧ w1.connects = w.connects ∧ w1.calls = w.calls := by
  have hlen : args.length > 0 := List.length_pos.mpr hargs
  unfold qpycore_pyqtconfigure
  rw [if_pos hlen]
  exact ⟨_, rfl, rfl, by decide, rfl, rfl, rfl⟩

/-- Scenario S4: `pyqtConfigure(1)` is rejected. -/
theorem configure_rejects_positional_witness :
    ∃ w1, qpycore_pyqtconfigure sampleEnv sampleWorld [PyVal.int 1] [] = some (.null, w1)
      ∧ w1.err = some ⟨.TypeError, "QObject.pyqtConfigure() has no positional arguments"⟩
      ∧ Contains "QObject.pyqtConfigure() has no positional arguments"
          "no positional arguments"
      ∧ w1.props = sampleWorld.props ∧ w1.connects = sampleWorld.connects
      ∧ w1.calls = sampleWorld.calls :=
  configure_rejects_positional sampleEnv sampleWorld [PyVal.int 1] [] (by decide)

/-- C8, as stated, fails: `count` is an int property for which a converter is
built, the value is one the converter rejects, and the error left pending is
the converter's, whose message does not quote `count`. -/
theorem configure_uncoercible_message_counterexample :
    0 ≤ sampleEnv.indexOfProperty "count"
      ∧ 0 ≤ sampleEnv.userType (sampleEnv.indexOfProperty "count")
      ∧ coerced sampleEnv (sampleEnv.indexOfProperty "count") PyVal.object = none
      ∧ ∃ w1 e, qpycore_pyqtconfigure sampleEnv sampleWorld [] [some ("count", PyVal.object)]
            = some (.null, w1)
          ∧ w1.err = some e ∧ ¬ Contains e.msg "'count'" :=
  ⟨by decide, by decide, by decide, _, _, rfl, rfl, by decide⟩

/-- C8 amended: for a property of non-negative user type and a value that does
not convert, `qpycore_pyqtconfigure` returns null and leaves every property as
it was; when no converter can be built the error is the TypeError quoting the
property name, and when the converter is built and rejects the value the error
is the one the converter raised. -/
theorem configure_uncoercible_value {N V A Q : Type} (env : Env N V A Q)
    (w : World N V A Q) (k : N) (v : V) (n : String)
    (hself : env.sipGetCppPtr = .ok ())
    (hname : env.sipString_AsASCIIString k = .ok n)
    (hidx : 0 ≤ env.indexOfProperty n)
    (hty : 0 ≤ env.userType (env.indexOfProperty n))
    (hbad : coerced env (env.indexOfProperty n) v = none) :
    ∃ w1, qpycore_pyqtconfigure env w [] [some (k, v)] = some (.null, w1)
      ∧ w1.props = w.props
      ∧ (env.parse (env.indexOfProperty n) = false →
          w1.err = some ⟨.TypeError, "'" ++ n ++ "' keyword argument has an invalid type"⟩
            ∧ Contains ("'" ++ n ++ "' keyword argument has an invalid type")
                ("'" ++ n ++ "'"))
      ∧ (env.parse (env.indexOfProperty n) = true →
          ∃ e, env.fromPyObject (env.indexOfProperty n) v = .error e ∧ w1.err = some e) := by
  rw [qpycore_pyqtconfigure_eq env w _ hself, entries_some, entries_nil, configure_entries]
  unfold invoke handle_argument
  rw [hname]
  dsimp only
  rw [if_pos hidx, if_pos hty]
  unfold coerced at hbad
  rw [if_pos hty] at hbad
  by_cases hp : env.parse (env.indexOfProperty n) = true
  · rw [if_pos hp] at hbad ⊢
    cases hf : env.fromPyObject (env.indexOfProperty n) v with
    | ok q => rw [hf] at hbad; cases hbad
    | error e =>
      refine ⟨_, rfl, rfl, ?_, ?_⟩
      · intro hfalse
        rw [hp] at hfalse
        cases hfalse
      · intro _
        exact ⟨e, rfl, rfl⟩
  · rw [if_neg hp]
    refine ⟨_, rfl, rfl, ?_, ?_⟩
    · intro _
      refine ⟨rfl, ?_⟩
      unfold Contains
      exact ⟨[], (" keyword argument has an invalid type" : String).toList, by
        simp [String.toList, String.data_append]⟩
    · intro htrue
      exact absurd htrue hp

/-- Scenario S6: an uncoercible value for `count` fails with the converter's
error and `count` keeps its value 1. -/
theorem configure_uncoercible_value_witness :
    ∃ w1, qpycore_pyqtconfigure sampleEnv sampleWorld [] [some ("count", PyVal.object)]
        = some (.null, w1)
      ∧ w1.props "count" = some 1
      ∧ w1.err = some ⟨.TypeError,
          "unable to convert a Python 'object' object to a C++ 'int' instance"⟩ := by
  obtain ⟨w1, hret, hprops, _, herr⟩ := configure_uncoercible_value sampleEnv sampleWorld
    "count" PyVal.object "count" rfl rfl (by decide) (by decide) (by decide)
  obtain ⟨e, he, hw⟩ := herr (by decide)
  refine ⟨w1, hret, by rw [hprops]; rfl, ?_⟩
  rw [hw]
  cases he
  rfl

/-! ## Properties of `qpycore_qobject_finalisation` -/

/-- When no entry is in error, the entries that are not handled are the unknown
ones. -/
theorem filter_not_handled {N V A Q : Type} (env : Env N V A Q) (l : List (N × V))
    (hne : ∀ e ∈ l, classify env e ≠ .AsError) :
    l.filter (fun e => decide (classify env e ≠ .AsHandled))
      = l.filter (fun e => decide (classify env e = .AsUnknown)) := by
  apply List.filter_congr
  intro e he
  have h1 := hne e he
  cases hc : classify env e with
  | AsError => exact absurd hc h1
  | AsHandled => simp
  | AsUnknown => simp

/-- C3: for a well-formed mapping with no entry in error, finalisation with a
sink returns 0 and leaves the mapping as it was; the mapping stored in the sink
has exactly the unknown entries of the input, with their values and in order;
the sink is left unwritten only when every entry is unknown. -/
theorem finalisation_partitions {N V A Q : Type} [DecidableEq N] (env : Env N V A Q)
    (w : World N V A Q) (M : PyDict N V)
    (hwf : WellFormed M)
    (hne : ∀ e ∈ entries M, classify env e ≠ .AsError) :
    ∃ s, qpycore_qobject_finalisation env w (some M) true = some (0, s)
      ∧ s.kwds = some M
      ∧ s.world = effects env (entries M) w
      ∧ (∀ d, s.sinkMapping = some d →
          entries d = (entries M).filter (fun e => decide (classify env e = .AsUnknown)))
      ∧ (s.sinkMapping = none → ∀ e ∈ entries M, classify env e = .AsUnknown) := by
  have hloop := finalisation_loop_fresh env true M [] (M.length + 1) w ⟨M, none, 0, none⟩
    rfl (by simpa [WellFormed] using hwf) hne (Nat.lt_succ_self _)
  unfold qpycore_qobject_finalisation
  dsimp only
  rw [if_pos rfl]
  by_cases hex : ∃ e ∈ entries M, classify env e = .AsHandled
  · have h2 := hloop.2 hex
    rw [List.length_nil] at h2
    rw [h2]
    refine ⟨_, rfl, rfl, rfl, ?_, ?_⟩
    · intro d hd
      simp only [FinalState.sinkMapping, Option.some.injEq, List.nil_append] at hd
      subst hd
      rw [entries_strip, filter_not_handled env _ hne]
    · intro hnone
      simp [FinalState.sinkMapping] at hnone
  · have hall : ∀ e ∈ entries M, classify env e ≠ .AsHandled := fun e he hc =>
      hex ⟨e, he, hc⟩
    have h1 := hloop.1 hall
    rw [List.length_nil] at h1
    rw [h1]
    refine ⟨_, rfl, rfl, rfl, ?_, ?_⟩
    · intro d hd
      simp [FinalState.sinkMapping] at hd
    · intro _ e he
      have h3 := hne e he
      have h4 := hall e he
      cases hc : classify env e with
      | AsError => exact absurd hc h3
      | AsHandled => exact absurd hc h4
      | AsUnknown => rfl

/-- Scenario S5: finalisation of `{count: 3, extra: 9}` with a sink returns 0,
sets `count` to 3, stores `{extra: 9}` in the sink and leaves the input as it
was. -/
theorem finalisation_partitions_witness :
    ∃ s, qpycore_qobject_finalisation sampleEnv sampleWorld (some partitionKwds) true
        = some (0, s)
      ∧ s.kwds = some partitionKwds
      ∧ s.world.props "count" = some 3
      ∧ ∃ d, s.sinkMapping = some d ∧ entries d = [("extra", PyVal.int 9)] := by
  obtain ⟨s, hret, hk, hw, hsink, _⟩ := finalisation_partitions sampleEnv sampleWorld
    partitionKwds (by unfold WellFormed; decide) (by decide)
  refine ⟨s, hret, hk, by rw [hw]; rfl, ?_⟩
  have hev : qpycore_qobject_finalisation sampleEnv sampleWorld (some partitionKwds) true
      = some (0, ⟨effects sampleEnv (entries partitionKwds) sampleWorld,
          some partitionKwds, some [none, some ("extra", PyVal.int 9)], 1, some .copy⟩) :=
    rfl
  rw [hev] at hret
  cases hret
  exact ⟨_, rfl, by decide⟩

/-- C5: finalisation with a sink always returns and never changes the
caller's mapping; the copy exists and the sink is written only if some entry is
handled; with an absent mapping it returns 0 and leaves the sink unwritten. -/
theorem finalisation_copy_on_write {N V A Q : Type} [DecidableEq N] (env : Env N V A Q)
    (w : World N V A Q) (M : PyDict N V) :
    (∃ ret s, qpycore_qobject_finalisation env w (some M) true = some (ret, s)
        ∧ s.kwds = some M
        ∧ ((s.updated_kwds = none ∧ s.copy = none ∧ s.copyRefs = 0)
            ∨ ∃ e ∈ entries M, classify env e = .AsHandled))
      ∧ (∃ s, qpycore_qobject_finalisation env w none true = some (0, s)
          ∧ s.kwds = none ∧ s.updated_kwds = none ∧ s.copy = none) := by
  constructor
  · obtain ⟨ret, w1, h1, hloop, hk, hrest⟩ := finalisation_loop_frame env true M []
      (M.length + 1) none w ⟨M, none, 0, none⟩ (by simp) rfl (Nat.lt_succ_self _)
    unfold qpycore_qobject_finalisation
    dsimp only
    rw [if_pos rfl]
    rw [List.length_nil] at hloop
    rw [hloop]
    refine ⟨ret, _, rfl, ?_, ?_⟩
    · dsimp only
      rw [hk]
    · rcases hrest with ⟨hu, hc, hr⟩ | hh
      · exact Or.inl ⟨hu, hc, hr⟩
      · exact Or.inr hh
  · exact ⟨_, rfl, rfl, rfl, rfl⟩

/-- C6 fails on the code: for `{count: 3, shape: 3}` with a sink, `count` is
handled (the copy is made and stored in the sink), then `shape` is in error;
finalisation returns -1 while the copy still holds its reference and the sink
still designates it. -/
theorem finalisation_error_keeps_copy :
    ∃ s, qpycore_qobject_finalisation sampleEnv sampleWorld (some lateErrorKwds) true
        = some (-1, s)
      ∧ s.copyRefs = 1
      ∧ s.updated_kwds = some .copy
      ∧ s.sinkMapping = some [none, some ("shape", PyVal.int 3)] :=
  ⟨_, rfl, rfl, rfl, rfl⟩

/-- C10: for a well-formed mapping with no entry in error, finalisation without
a sink returns 0, has invoked the worker exactly once on each entry of the
original mapping, in order, and leaves in the mapping exactly the unknown
entries; no copy is made. -/
theorem finalisation_in_place {N V A Q : Type} [DecidableEq N] (env : Env N V A Q)
    (w : World N V A Q) (M : PyDict N V)
    (hwf : WellFormed M)
    (hne : ∀ e ∈ entries M, classify env e ≠ .AsError) :
    ∃ s d, qpycore_qobject_finalisation env w (some M) false = some (0, s)
      ∧ s.world.calls = w.calls ++ entries M
      ∧ s.kwds = some d
      ∧ entries d = (entries M).filter (fun e => decide (classify env e = .AsUnknown))
      ∧ s.copy = none ∧ s.updated_kwds = none := by
  have hloop := finalisation_loop_target env false .kwds M [] [] (M.length + 1) w
    ⟨M, none, 0, none⟩ rfl rfl (fun h => by cases h) (fun _ => rfl)
    (by simpa [WellFormed] using hwf) hne (Nat.lt_succ_self _)
  unfold qpycore_qobject_finalisation
  dsimp only
  rw [if_neg (by decide)]
  rw [List.length_nil] at hloop
  rw [hloop]
  refine ⟨_, strip env M, rfl, ?_, rfl, ?_, rfl, rfl⟩
  · exact effects_calls env (entries M) w
  · rw [entries_strip, filter_not_handled env _ hne]

/-- Scenario S5 without a sink: `count` is removed from the mapping itself and
`extra` stays; the worker ran once on each of the two entries. -/
theorem finalisation_in_place_witness :
    ∃ s, qpycore_qobject_finalisation sampleEnv sampleWorld (some partitionKwds) false
        = some (0, s)
      ∧ s.world.calls = [("count", PyVal.int 3), ("extra", PyVal.int 9)]
      ∧ ∃ d, s.kwds = some d ∧ entries d = [("extra", PyVal.int 9)] := by
  obtain ⟨s, d, hret, hcalls, hk, hd, _, _⟩ := finalisation_in_place sampleEnv sampleWorld
    partitionKwds (by unfold WellFormed; decide) (by decide)
  refine ⟨s, hret, hcalls, d, hk, ?_⟩
  rw [hd]
  decide

end PyQtConfigure
